import Mathlib

/-!
Shallow embedding of `gisimulation/mainGUI.py` (grating-interferometer
simulation GUI), covering the pieces of the code that the verified
properties talk about: the distance-input panel (`Distances.update`,
`Distances.on_text`), the component-chain checkbox handlers
(`on_grating_checkbox_active`, `on_sample_checkbox_active`), the
float-input filter (`FloatInput.insert_text`), the input-file loader
(`_load_input_file`) and the geometry-calculation driver
(`giGUI.calculate_geometry`).
-/

namespace GiSim

/-- A `FloatInput` distance widget created by `Distances.update`: its kivy
id and its `disabled` flag (disabled inputs are display-only).  A freshly
constructed `FloatInput` is enabled (`disabled = false`). -/
structure DistWidget where
  id : String
  disabled : Bool
deriving DecidableEq, Repr

/-- Python `str.lower()`: lowercase a string character by character. -/
def pyLower (s : String) : String :=
  ⟨s.data.map Char.toLower⟩

/-- The id given to the adjacent-distance input between components `a` and
`b`: `"distance_" ++ a.lower() ++ "_" ++ b.lower()` (mainGUI.py lines
217-220). -/
def distanceId (a b : String) : String :=
  "distance_" ++ pyLower a ++ "_" ++ pyLower b

/-- The `disabled` flag assigned to the main adjacent-distance input with
id `distance_id` (mainGUI.py lines 222-232).  Both inner `if`s of the
`cone` branch are checked in sequence (they are not `elif`). -/
def distanceDisabled (dual_phase : Bool) (beam_geometry gi_geometry
    distance_id : String) : Bool :=
  if beam_geometry = "parallel" ∧ gi_geometry ≠ "free" then
    true
  else if beam_geometry = "cone" ∧ gi_geometry ≠ "free" then
    if distance_id = "distance_g1_g2" ∧ dual_phase = false then
      true
    else if gi_geometry = "sym" ∧
        (distance_id = "distance_source_g1" ∨
         distance_id = "distance_g0_g1") then
      true
    else
      false
  else
    false

/-- The extra linked total-length input added right after the upstream-
to-G1 input when `gi_geometry` is `conv` or `inv` (mainGUI.py lines
240-272).  It is created with the default `disabled = false`. -/
def extraWidgets (gi_geometry distance_id : String) : List DistWidget :=
  if (distance_id = "distance_source_g1" ∨
      distance_id = "distance_g0_g1") ∧
     (gi_geometry = "conv" ∨ gi_geometry = "inv") then
    [⟨if distance_id = "distance_source_g1" then "distance_source_g2"
      else "distance_g0_g2", false⟩]
  else
    []

/-- The distance inputs created for one adjacent component pair `(a, b)`
of the loop body of `Distances.update`: the main input followed by the
optional linked extra input. -/
def pairWidgets (dual_phase : Bool) (beam_geometry gi_geometry a b :
    String) : List DistWidget :=
  let did := distanceId a b
  ⟨did, distanceDisabled dual_phase beam_geometry gi_geometry did⟩ ::
    extraWidgets gi_geometry did

/-- `Distances.update` (mainGUI.py lines 154-276), modelled as the list of
`FloatInput` widgets it creates, in creation order.  `Sample` is first
removed from the component list; for a parallel beam with a non-free GI
geometry the component list is replaced by `[G1, G2]`; then one input is
created per adjacent pair, plus the linked extra input where
applicable. -/
def DistancesUpdate (component_list : List String) (dual_phase : Bool)
    (beam_geometry gi_geometry : String) : List DistWidget :=
  let cl := component_list.erase "Sample"
  let cl := if beam_geometry = "parallel" ∧ gi_geometry ≠ "free" then
      ["G1", "G2"]
    else cl
  (cl.zip cl.tail).flatMap fun p =>
    pairWidgets dual_phase beam_geometry gi_geometry p.1 p.2

theorem pairWidgets_cone_g1g2 (dp : Bool) (gg a b : String)
    (hgg : gg ≠ "free") (w : DistWidget)
    (hw : w ∈ pairWidgets dp "cone" gg a b)
    (hid : w.id = "distance_g1_g2") : w.disabled = !dp := by
  simp only [pairWidgets] at hw
  rcases List.mem_cons.mp hw with rfl | hmem
  · have hid2 : distanceId a b = "distance_g1_g2" := hid
    show distanceDisabled dp "cone" gg (distanceId a b) = !dp
    rw [hid2]
    cases dp <;> simp [distanceDisabled, hgg]
  · exfalso
    simp only [extraWidgets] at hmem
    split at hmem
    · rcases List.mem_singleton.mp hmem with rfl
      revert hid
      split <;> decide
    · exact absurd hmem (List.not_mem_nil w)

theorem distancesUpdate_parallel_nonfree_eq (component_list : List String)
    (dual_phase : Bool) (gi_geometry : String) (h : gi_geometry ≠ "free") :
    DistancesUpdate component_list dual_phase "parallel" gi_geometry =
      [⟨"distance_g1_g2", true⟩] := by
  simp only [DistancesUpdate]
  rw [if_pos ⟨trivial, h⟩]
  show pairWidgets dual_phase "parallel" gi_geometry "G1" "G2" ++ [] = _
  rw [List.append_nil]
  show ⟨distanceId "G1" "G2", _⟩ :: extraWidgets gi_geometry
      (distanceId "G1" "G2") = _
  rw [show distanceId "G1" "G2" = "distance_g1_g2" from by decide]
  unfold distanceDisabled extraWidgets
  rw [if_pos ⟨rfl, h⟩, if_neg (fun hc => by
    rcases hc.1 with h2 | h2 <;> exact absurd h2 (by decide))]

/-- C2: for every update of the distance panel with
`beam_geometry = parallel` and `gi_geometry ≠ free`, the component list is
reduced to `[G1, G2]`, so the only adjacent-distance input created is
`distance_g1_g2`, and that input is disabled (display-only); no other
adjacent-distance input exists. -/
theorem update_parallel_nonfree_only_g1g2 (component_list : List String)
    (dual_phase : Bool) (gi_geometry : String) (h : gi_geometry ≠ "free") :
    DistancesUpdate component_list dual_phase "parallel" gi_geometry =
      [⟨"distance_g1_g2", true⟩] :=
  distancesUpdate_parallel_nonfree_eq component_list dual_phase gi_geometry h

/-- C2 witness at a concrete input. -/
theorem update_parallel_nonfree_only_g1g2_witness :
    DistancesUpdate ["Source", "G1", "G2", "Detector"] false "parallel"
      "sym" = [⟨"distance_g1_g2", true⟩] :=
  update_parallel_nonfree_only_g1g2 ["Source", "G1", "G2", "Detector"]
    false "sym" (by decide)

/-- C3 counterexample: in the parallel non-free topology the
`distance_g1_g2` input is NOT settable; at a concrete update it is created
with `disabled = true`, so no widget with that id accepts user input. -/
theorem parallel_nonfree_g1g2_not_settable :
    ¬ ∃ w ∈ DistancesUpdate ["Source", "G1", "G2", "Detector"] false
      "parallel" "sym", w.id = "distance_g1_g2" ∧ w.disabled = false := by
  decide

/-- C3 amended: in the parallel, non-free topology the G1-G2 distance is
NOT settable by the user: the only distance input created is
`distance_g1_g2` and it is disabled (display-only, derived from the
grating pitches); no distance input of the panel accepts a user-supplied
value. -/
theorem update_parallel_nonfree_display_only (component_list : List String)
    (dual_phase : Bool) (gi_geometry : String) (h : gi_geometry ≠ "free") :
    ∀ w ∈ DistancesUpdate component_list dual_phase "parallel" gi_geometry,
      w.disabled = true := by
  intro w hw
  rw [distancesUpdate_parallel_nonfree_eq component_list dual_phase
    gi_geometry h] at hw
  rcases List.mem_singleton.mp hw with rfl
  rfl

/-- C3 witness at a concrete input. -/
theorem update_parallel_nonfree_display_only_witness :
    (⟨"distance_g1_g2", true⟩ : DistWidget).disabled = true :=
  update_parallel_nonfree_display_only ["Source", "G1", "G2", "Detector"]
    false "sym" (by decide) ⟨"distance_g1_g2", true⟩ (by decide)

/-- C4: for every update of the distance panel with `beam_geometry = cone`
and `gi_geometry ≠ free`, the `distance_g1_g2` input is disabled
(display-only) if and only if `dual_phase` is false; when `dual_phase` is
true it stays enabled as a user input. -/
theorem update_cone_nonfree_g1g2_disabled_iff (component_list : List String)
    (dual_phase : Bool) (gi_geometry : String) (h : gi_geometry ≠ "free") :
    ∀ w ∈ DistancesUpdate component_list dual_phase "cone" gi_geometry,
      w.id = "distance_g1_g2" → w.disabled = !dual_phase := by
  intro w hw hid
  simp only [DistancesUpdate] at hw
  rcases List.mem_flatMap.mp hw with ⟨p, _, hwp⟩
  exact pairWidgets_cone_g1g2 dual_phase gi_geometry p.1 p.2 h w hwp hid

/-- C4 witness at a concrete input. -/
theorem update_cone_nonfree_g1g2_disabled_iff_witness :
    (⟨"distance_g1_g2", false⟩ : DistWidget).disabled = !true :=
  update_cone_nonfree_g1g2_disabled_iff ["Source", "G1", "G2", "Detector"]
    true "conv" (by decide) ⟨"distance_g1_g2", false⟩ (by decide) rfl

/-! ### FloatInput (mainGUI.py lines 98-124)

Widget text is modelled as a list of characters.  The regex pattern
`[^0-9]` removes every character that is not a digit. -/

/-- `re.sub('[^0-9]', '', s)`: keep only the digits of `s`. -/
def subNonDigits (s : List Char) : List Char :=
  s.filter fun c => c.isDigit

/-- Python `substring.split('.', 1)`: split at the first `'.'` only,
yielding one part (no dot present) or two parts. -/
def splitFirstDot (s : List Char) : List Char × Option (List Char) :=
  match s.span (fun c => c != '.') with
  | (a, []) => (a, none)
  | (a, _ :: t) => (a, some t)

/-- The filtered string that `FloatInput.insert_text` passes on to the
underlying `TextInput.insert_text` (mainGUI.py lines 113-124): if the
current text already holds a `'.'`, strip everything but digits from the
inserted substring; otherwise split the substring at its first `'.'` and
join the digit-filtered parts with a single `'.'`. -/
def insertTextFilter (text substring : List Char) : List Char :=
  if '.' ∈ text then
    subNonDigits substring
  else
    match splitFirstDot substring with
    | (a, none) => subNonDigits a
    | (a, some b) => subNonDigits a ++ '.' :: subNonDigits b

/-- The invariant maintained by `FloatInput`: the text holds only digits
and `'.'`, with at most one `'.'`. -/
def FloatInvariant (l : List Char) : Prop :=
  (∀ c ∈ l, c.isDigit ∨ c = '.') ∧ l.count '.' ≤ 1

theorem mem_subNonDigits {c : Char} {l : List Char}
    (h : c ∈ subNonDigits l) : c.isDigit :=
  (List.mem_filter.mp h).2

theorem count_dot_subNonDigits (l : List Char) :
    (subNonDigits l).count '.' = 0 :=
  List.count_eq_zero.mpr fun h => by
    have := mem_subNonDigits h
    exact absurd this (by decide)

theorem insertTextFilter_mem (text substring : List Char) :
    ∀ c ∈ insertTextFilter text substring, c.isDigit ∨ c = '.' := by
  intro c hc
  unfold insertTextFilter at hc
  split at hc
  · exact Or.inl (mem_subNonDigits hc)
  · rcases hsplit : splitFirstDot substring with ⟨a, b?⟩
    rw [hsplit] at hc
    cases b? with
    | none => exact Or.inl (mem_subNonDigits hc)
    | some b =>
      rcases List.mem_append.mp hc with hc | hc
      · exact Or.inl (mem_subNonDigits hc)
      · rcases List.mem_cons.mp hc with rfl | hc
        · exact Or.inr rfl
        · exact Or.inl (mem_subNonDigits hc)

theorem insertTextFilter_count_dot (text substring : List Char) :
    (insertTextFilter text substring).count '.' ≤ 1 := by
  unfold insertTextFilter
  split
  · rw [count_dot_subNonDigits]
    exact Nat.zero_le 1
  · rcases hsplit : splitFirstDot substring with ⟨a, b?⟩
    cases b? with
    | none =>
      rw [count_dot_subNonDigits]
      exact Nat.zero_le 1
    | some b =>
      simp [List.count_append, List.count_cons, count_dot_subNonDigits]

theorem insertTextFilter_count_dot_of_mem (text substring : List Char)
    (h : '.' ∈ text) : (insertTextFilter text substring).count '.' = 0 := by
  unfold insertTextFilter
  rw [if_pos h]
  exact count_dot_subNonDigits substring

/-- C9: `FloatInput.insert_text` preserves the invariant that the widget
text contains only the characters 0-9 and `'.'` with at most one `'.'`:
for every current text (split at the cursor into `pre ++ post`) satisfying
the invariant and every inserted substring, the text after insertion still
satisfies it. -/
theorem floatInput_insert_text_preserves (pre post substring : List Char)
    (h : FloatInvariant (pre ++ post)) :
    FloatInvariant
      (pre ++ insertTextFilter (pre ++ post) substring ++ post) := by
  obtain ⟨hmem, hcount⟩ := h
  constructor
  · intro c hc
    rcases List.mem_append.mp hc with hc | hc
    · rcases List.mem_append.mp hc with hc | hc
      · exact hmem c (List.mem_append_left _ hc)
      · exact insertTextFilter_mem _ _ c hc
    · exact hmem c (List.mem_append_right _ hc)
  · rw [List.count_append, List.count_append]
    by_cases hdot : '.' ∈ pre ++ post
    · rw [insertTextFilter_count_dot_of_mem _ _ hdot]
      rw [List.count_append] at hcount
      omega
    · have hpre : pre.count '.' = 0 :=
        List.count_eq_zero.mpr fun hm =>
          hdot (List.mem_append_left _ hm)
      have hpost : post.count '.' = 0 :=
        List.count_eq_zero.mpr fun hm =>
          hdot (List.mem_append_right _ hm)
      have hs := insertTextFilter_count_dot (pre ++ post) substring
      omega

/-- C9 witness at a concrete input. -/
theorem floatInput_insert_text_preserves_witness :
    FloatInvariant
      (['1'] ++ insertTextFilter (['1'] ++ ['.', '5'])
        ['2', 'x', '.', '3'] ++ ['.', '5']) :=
  floatInput_insert_text_preserves ['1'] ['.', '5'] ['2', 'x', '.', '3']
    (by constructor
        · intro c hc
          fin_cases hc <;> simp
        · decide)

/-! ### Sample placement (mainGUI.py lines 2491-2526) -/

/-- The component chain produced by the add branch of
`giGUI.on_sample_checkbox_active` (mainGUI.py lines 2501-2509): `Sample`
is inserted at `index(relative_to) + 1` when `relative_position` is
`after` and at `index(relative_to)` otherwise.  Python `list.index`
presupposes that `relative_to` occurs in the list. -/
def onSampleAdd (components : List String)
    (relative_to relative_position : String) : List String :=
  let reference_index := components.indexOf relative_to
  if relative_position = "after" then
    components.insertIdx (reference_index + 1) "Sample"
  else
    components.insertIdx reference_index "Sample"

theorem insertIdx_eq_take_cons_drop (x : String) :
    ∀ (n : Nat) (l : List String), n ≤ l.length →
      l.insertIdx n x = l.take n ++ x :: l.drop n
  | 0, l, _ => by simp
  | n + 1, [], h => by simp at h
  | n + 1, a :: l, h => by
    rw [List.insertIdx_succ_cons,
      insertIdx_eq_take_cons_drop x n l (Nat.le_of_succ_le_succ h)]
    simp

/-- C6: for every component chain and sample placement whose reference
component is in the chain, adding the sample puts `Sample` exactly at
index `index(relative_to) + 1` for `after` and `index(relative_to)` for
`before`, leaving every other component in place. -/
theorem sample_insert_position (components : List String)
    (relative_to relative_position : String)
    (h : relative_to ∈ components) :
    onSampleAdd components relative_to relative_position =
      components.take (components.indexOf relative_to +
        if relative_position = "after" then 1 else 0) ++
      "Sample" :: components.drop (components.indexOf relative_to +
        if relative_position = "after" then 1 else 0) := by
  have hlt : components.indexOf relative_to < components.length :=
    List.indexOf_lt_length.mpr h
  simp only [onSampleAdd]
  split_ifs
  · exact insertIdx_eq_take_cons_drop _ _ _ (by omega)
  · rw [Nat.add_zero]
    exact insertIdx_eq_take_cons_drop _ _ _ (by omega)

/-- C6 witness at a concrete input. -/
theorem sample_insert_position_witness :
    onSampleAdd ["Source", "G1", "G2", "Detector"] "G1" "after" =
      (["Source", "G1", "G2", "Detector"].take
        ((["Source", "G1", "G2", "Detector"] : List String).indexOf "G1" +
          if "after" = "after" then 1 else 0)) ++
      "Sample" :: (["Source", "G1", "G2", "Detector"].drop
        ((["Source", "G1", "G2", "Detector"] : List String).indexOf "G1" +
          if "after" = "after" then 1 else 0)) :=
  sample_insert_position ["Source", "G1", "G2", "Detector"] "G1" "after"
    (by decide)

/-- Python `text[0]` as a one-character string. -/
def firstCharStr (s : String) : String :=
  ⟨s.data.take 1⟩

/-- The `sample_position` code set by `giGUI.on_sample_checkbox_active`
(mainGUI.py lines 2510-2521): the first letter of `relative_position`
followed by the lowercase first letter of `relative_to` when the latter
is `Source` or `Detector`, else by the whole lowercase name. -/
def samplePosition (relative_to relative_position : String) : String :=
  if relative_to = "Source" ∨ relative_to = "Detector" then
    firstCharStr relative_position ++ pyLower (firstCharStr relative_to)
  else
    firstCharStr relative_position ++ pyLower relative_to

/-- C8 counterexample: for a sample added after `G1` the exposed
`sample_position` value is `"ag1"`, which has three characters, so the
value is not in general a two-character code. -/
theorem samplePosition_not_two_chars :
    samplePosition "G1" "after" = "ag1" ∧
      (samplePosition "G1" "after").length ≠ 2 := by
  constructor <;> decide

/-- The `sample_position` coding as the spec words it (placement letter
`a`/`b`, then the reference's lowercase first letter for Source/Detector
or its whole lowercase name), written independently of the code for the
refinement comparison. -/
def specSamplePosition (relative_to relative_position : String) : String :=
  (if relative_position = "after" then "a" else "b") ++
    (if relative_to = "Source" then "s"
     else if relative_to = "Detector" then "d"
     else pyLower relative_to)

/-- C8 amended: for every added sample the exposed `sample_position`
value is the placement letter (`a` for after, `b` for before) followed by
the reference component's code (lowercase first letter for
Source/Detector, whole lowercase grating name otherwise); it is two
characters only when the reference is Source or Detector, three when it
is a grating. -/
theorem samplePosition_spec (relative_to relative_position : String)
    (hpos : relative_position = "after" ∨ relative_position = "before")
    (hrel : relative_to ∈ ["Source", "Detector", "G0", "G1", "G2"]) :
    samplePosition relative_to relative_position =
      specSamplePosition relative_to relative_position ∧
    (samplePosition relative_to relative_position).length =
      (if relative_to = "Source" ∨ relative_to = "Detector" then 2
       else 1 + relative_to.length) := by
  rcases hpos with rfl | rfl <;>
    (simp only [List.mem_cons, List.not_mem_nil, or_false] at hrel;
     rcases hrel with rfl | rfl | rfl | rfl | rfl) <;> decide

/-- C8 witness at a concrete input. -/
theorem samplePosition_spec_witness :
    samplePosition "G1" "after" = specSamplePosition "G1" "after" ∧
      (samplePosition "G1" "after").length =
        (if "G1" = "Source" ∨ "G1" = "Detector" then 2
         else 1 + ("G1" : String).length) :=
  samplePosition_spec "G1" "after" (Or.inl rfl) (by decide)

/-! ### Linked distance pair (mainGUI.py lines 240-301)

For cone beam with `gi_geometry` conv or inv, `Distances.update` binds
the upstream-to-G1 input and the extra upstream-to-G2 input to each
other through `Distances.on_text`.  The state of the pair is the two
texts, the two `disabled` flags, and the panel's `distance_fixed` flag.
Setting a widget's text programmatically re-dispatches `on_text` for
that widget, so clearing the linked input's non-empty text inside the
handler immediately runs the handler once more with an empty value,
which re-enables the original input; the model inlines that nested
dispatch. -/

structure LinkedPair where
  textA : String
  disabledA : Bool
  textB : String
  disabledB : Bool
  distance_fixed : Bool
deriving DecidableEq, Repr

/-- `Distances.on_text` (mainGUI.py lines 278-301) run for a text-change
event on input A with new value `v`; `linked_instance` is input B.  The
nested dispatch caused by `linked_instance.text = ''` (which fires
`on_text` with the roles swapped and an empty value, re-enabling A) is
inlined. -/
def onTextA (s : LinkedPair) (v : String) : LinkedPair :=
  let s := { s with textA := v }
  if v ≠ "" then
    let s :=
      if s.distance_fixed = false then
        if s.textB ≠ "" then
          { s with disabledB := true, textB := "", disabledA := false }
        else
          { s with disabledB := true }
      else s
    if s.textB ≠ "" then
      if s.distance_fixed = true then
        { s with disabledA := false, disabledB := false,
                 distance_fixed := false }
      else s
    else
      { s with disabledB := true, distance_fixed := true }
  else
    { s with disabledB := false }

/-- Swap the two slots of the pair (the two inputs run the same handler
with the roles exchanged). -/
def LinkedPair.swap (s : LinkedPair) : LinkedPair :=
  ⟨s.textB, s.disabledB, s.textA, s.disabledA, s.distance_fixed⟩

/-- `Distances.on_text` run for a text-change event on input B. -/
def onTextB (s : LinkedPair) (v : String) : LinkedPair :=
  (onTextA s.swap v).swap

/-- After any event, either at most one of the two inputs holds a value,
or both hold values but then both are enabled and `distance_fixed` is
cleared (the accepted populated-from-results state). -/
def pairInv (s : LinkedPair) : Prop :=
  s.textA = "" ∨ s.textB = "" ∨
    (s.disabledA = false ∧ s.disabledB = false ∧ s.distance_fixed = false)

/-- C5: every text-entry event on the linked pair preserves the invariant
that at most one input holds a user-supplied value: entering a non-empty
value while `distance_fixed` is unset clears and disables the other
input, while a second value arriving when `distance_fixed` is set (both
populated from a prior computed result) keeps both values and re-enables
both inputs instead of treating them as a conflict. -/
theorem linked_pair_on_text (s : LinkedPair) (v : String) :
    (pairInv (onTextA s v) ∧ pairInv (onTextB s v)) ∧
    (v ≠ "" → s.distance_fixed = false →
      (onTextA s v).textB = "" ∧ (onTextA s v).disabledB = true ∧
      (onTextB s v).textA = "" ∧ (onTextB s v).disabledA = true) ∧
    (v ≠ "" → s.distance_fixed = true → s.textB ≠ "" →
      (onTextA s v).textA = v ∧ (onTextA s v).textB = s.textB ∧
      (onTextA s v).disabledA = false ∧
      (onTextA s v).disabledB = false) := by
  by_cases hv : v = ""
  · subst hv
    refine ⟨⟨?_, ?_⟩, fun hv2 => absurd rfl hv2, fun hv2 => absurd rfl hv2⟩
    · exact Or.inl rfl
    · exact Or.inr (Or.inl rfl)
  · by_cases hf : s.distance_fixed = false
    · by_cases hb : s.textB = "" <;> by_cases ha : s.textA = "" <;>
        simp [onTextA, onTextB, LinkedPair.swap, pairInv, hv, hf, hb, ha]
    · rw [Bool.not_eq_false] at hf
      by_cases hb : s.textB = "" <;> by_cases ha : s.textA = "" <;>
        simp [onTextA, onTextB, LinkedPair.swap, pairInv, hv, hf, hb, ha]

/-- C5 witness at a concrete input: entering `"5"` into input A while
`distance_fixed` is unset clears and disables input B. -/
theorem linked_pair_on_text_witness :
    (onTextA ⟨"", false, "7", false, false⟩ "5").textB = "" ∧
      (onTextA ⟨"", false, "7", false, false⟩ "5").disabledB = true :=
  ⟨((linked_pair_on_text ⟨"", false, "7", false, false⟩ "5").2.1
      (by decide) rfl).1,
   ((linked_pair_on_text ⟨"", false, "7", false, false⟩ "5").2.1
      (by decide) rfl).2.1⟩

/-! ### calculate_geometry (mainGUI.py lines 1265-1307) -/

/-- The entries of the `results` dict that `calculate_geometry` touches,
over abstract input and geometry-result types; `none` models a
cleared/empty entry (which is falsy in the Python truthiness tests). -/
structure Results (I G : Type) where
  input : Option I
  geometry : Option G
deriving DecidableEq, Repr

/-- Modelled from the spec: `main.reset_results` (module `main` is not
under src/, only its caller is).  Per the spec a successful resolution
"replaces any prior result as an atomic value" and `calculate_geometry`
tests `self.results['geometry']` for truthiness right before resetting,
so a reset yields a results mapping with no stored input and no geometry
result. -/
def reset_results {I G : Type} : Results I G :=
  ⟨none, none⟩

/-- The attributes of the `giGUI` instance that `calculate_geometry`
reads or writes. -/
structure GuiState (I G P : Type) where
  results : Results I G
  previous_results : Results I G
  parameters : P
deriving DecidableEq, Repr

/-- `giGUI.calculate_geometry` (mainGUI.py lines 1265-1307), abstracted
over its collaborators: `check` is the outcome of
`check_geometry_input`, `current_input` the value of `_collect_input`,
`same` the outcome of `main.compare_dictionaries` between the current
input and the stored one, and `geom` the `geometry.Geometry`
construction, which either returns the geometry results together with
the updated parameters or raises `GeometryError` (the `except` branch
only shows an error popup). -/
def calculate_geometry {I G P E : Type} (check : Bool) (current_input : I)
    (same : Bool) (geom : P → Except E (G × P)) (s : GuiState I G P) :
    GuiState I G P :=
  if check then
    let s1 := { s with previous_results :=
      if s.results.geometry.isSome ∧ same = true then s.results
      else s.previous_results }
    let s2 := { s1 with results :=
      { (reset_results : Results I G) with input := some current_input } }
    match geom s2.parameters with
    | .ok (g, p) => { s2 with
        results := { s2.results with geometry := some g },
        parameters := p }
    | .error _ => s2
  else s

/-- C1 counterexample: a concrete invocation whose geometry construction
raises `GeometryError` does not leave the previously computed geometry
result in place: `results.geometry` held `some 5` before the call and is
cleared (`none`) afterwards. -/
theorem calculate_geometry_clears_prior_result :
    (⟨⟨some 0, some 5⟩, ⟨none, none⟩, 0⟩ :
        GuiState Nat Nat Nat).results.geometry = some 5 ∧
    (calculate_geometry true 0 true
        (fun _ => (Except.error 0 : Except Nat (Nat × Nat)))
        ⟨⟨some 0, some 5⟩, ⟨none, none⟩, 0⟩).results.geometry = none := by
  constructor <;> rfl

/-- C1 amended: if the geometry resolution raises `GeometryError`, no new
geometry result is produced — but the previously computed geometry
result is not kept either: `calculate_geometry` resets the results dict
before calling `geometry.Geometry`, so afterwards `results['geometry']`
is empty and `results['input']` holds the freshly collected input; the
prior results survive only in `previous_results`, and only when the
input was unchanged since they were computed. -/
theorem calculate_geometry_error_state {I G P E : Type}
    (current_input : I) (same : Bool) (geom : P → Except E (G × P))
    (s : GuiState I G P) (e : E)
    (herr : geom s.parameters = Except.error e) :
    (calculate_geometry true current_input same geom s).results.geometry =
        none ∧
    (calculate_geometry true current_input same geom s).results.input =
        some current_input ∧
    (calculate_geometry true current_input same geom s).previous_results =
      (if s.results.geometry.isSome ∧ same = true then s.results
       else s.previous_results) := by
  have hmain : calculate_geometry true current_input same geom s =
      { results := { input := some current_input, geometry := none },
        previous_results := if s.results.geometry.isSome ∧ same = true
          then s.results else s.previous_results,
        parameters := s.parameters } := by
    unfold calculate_geometry
    rw [if_pos rfl]
    show (match geom s.parameters with
      | Except.ok (g, p) =>
          (⟨⟨some current_input, some g⟩,
            if s.results.geometry.isSome ∧ same = true then s.results
            else s.previous_results, p⟩ : GuiState I G P)
      | Except.error _ =>
          ⟨⟨some current_input, none⟩,
            if s.results.geometry.isSome ∧ same = true then s.results
            else s.previous_results, s.parameters⟩) = _
    rw [herr]
  rw [hmain]
  exact ⟨rfl, rfl, rfl⟩

/-- C1 witness at a concrete input. -/
theorem calculate_geometry_error_state_witness :
    (calculate_geometry true 0 true
        (fun _ => (Except.error 0 : Except Nat (Nat × Nat)))
        ⟨⟨some 0, some 5⟩, ⟨none, none⟩, 0⟩).results.geometry = none ∧
    (calculate_geometry true 0 true
        (fun _ => (Except.error 0 : Except Nat (Nat × Nat)))
        ⟨⟨some 0, some 5⟩, ⟨none, none⟩, 0⟩).results.input = some 0 ∧
    (calculate_geometry true 0 true
        (fun _ => (Except.error 0 : Except Nat (Nat × Nat)))
        ⟨⟨some 0, some 5⟩, ⟨none, none⟩, 0⟩).previous_results =
      (if (⟨⟨some 0, some 5⟩, ⟨none, none⟩, 0⟩ :
          GuiState Nat Nat Nat).results.geometry.isSome ∧ true = true
       then (⟨⟨some 0, some 5⟩, ⟨none, none⟩, 0⟩ :
          GuiState Nat Nat Nat).results
       else (⟨⟨some 0, some 5⟩, ⟨none, none⟩, 0⟩ :
          GuiState Nat Nat Nat).previous_results) :=
  calculate_geometry_error_state 0 true
    (fun _ => (Except.error 0 : Except Nat (Nat × Nat)))
    ⟨⟨some 0, some 5⟩, ⟨none, none⟩, 0⟩ 0 rfl

/-! ### _load_input_file (mainGUI.py lines 751-793) -/

/-- Python `'-' in s` for a stripped line: the line contains a dash. -/
def containsDash (s : String) : Bool :=
  s.data.contains '-'

/-- Python `'--' in s`: the line contains two consecutive dashes. -/
def containsDoubleDash : List Char → Bool
  | [] => false
  | [_] => false
  | a :: b :: t => (a == '-' && b == '-') || containsDoubleDash (b :: t)

/-- A value stored by `_load_input_file`: a flag key (line containing
`--`) stores the string `True`; any other key stores the list of value
lines found between its line and the next key line. -/
inductive InputValue where
  | flagTrue : InputValue
  | valueLines : List String → InputValue
deriving DecidableEq, Repr

/-- The indices of the lines treated as keys (mainGUI.py line 781): every
line containing a dash anywhere. -/
def keyIndices (lines : List String) : List Nat :=
  (List.range lines.length).filter fun i => containsDash (lines.getD i "")

/-- The key string of one loop iteration of `_load_input_file`:
`input_lines[key_index]`, where `kk` is the pair of one key index and
the following one. -/
def inputKey (lines : List String) (kk : Nat × Nat) : String :=
  lines.getD kk.1 ""

/-- The value stored for one loop iteration (mainGUI.py lines 787-791):
`True` for a flag line, else the slice of lines strictly between this key
index and the next key index. -/
def inputValue (lines : List String) (kk : Nat × Nat) : InputValue :=
  if containsDoubleDash (inputKey lines kk).data then
    InputValue.flagTrue
  else
    InputValue.valueLines
      ((lines.drop (kk.1 + 1)).take (kk.2 - (kk.1 + 1)))

/-- `_load_input_file` (mainGUI.py lines 751-793) acting on the stripped
lines of the file: the key indices are found, the line count is appended,
and each consecutive pair of key indices stores one key/value into the
parameter dictionary (modelled as a lookup function). -/
def loadInputFile (lines : List String)
    (input_parameters : String → Option InputValue) :
    String → Option InputValue :=
  let ki := keyIndices lines ++ [lines.length]
  (ki.zip ki.tail).foldl
    (fun params kk =>
      Function.update params (inputKey lines kk)
        (some (inputValue lines kk)))
    input_parameters

theorem foldl_update_not_mem {β : Type} (fk : Nat × Nat → String)
    (fv : Nat × Nat → β) :
    ∀ (ps : List (Nat × Nat)) (d : String → Option β) (k : String),
      (∀ q ∈ ps, fk q ≠ k) →
      ps.foldl (fun params q =>
        Function.update params (fk q) (some (fv q))) d k = d k
  | [], _, _, _ => rfl
  | q :: ps, d, k, h => by
    rw [List.foldl_cons, foldl_update_not_mem fk fv ps _ k
      (fun q' hq' => h q' (List.mem_cons_of_mem q hq'))]
    exact Function.update_noteq
      (Ne.symm (h q (List.mem_cons_self q ps))) _ _

theorem foldl_update_mem {β : Type} (fk : Nat × Nat → String)
    (fv : Nat × Nat → β) :
    ∀ (ps : List (Nat × Nat)) (d : String → Option β) (p : Nat × Nat),
      p ∈ ps → (ps.map fk).Nodup →
      ps.foldl (fun params q =>
        Function.update params (fk q) (some (fv q))) d (fk p) =
        some (fv p)
  | [], _, p, hp, _ => absurd hp (List.not_mem_nil p)
  | q :: ps, d, p, hp, hnd => by
    rw [List.map_cons, List.nodup_cons] at hnd
    rcases List.mem_cons.mp hp with rfl | hp2
    · rw [List.foldl_cons, foldl_update_not_mem fk fv ps _ (fk p)
        (fun q' hq' hk => hnd.1 (hk ▸ List.mem_map_of_mem fk hq'))]
      exact Function.update_same _ _ _
    · rw [List.foldl_cons]
      exact foldl_update_mem fk fv ps _ p hp2 hnd.2

theorem map_fst_zip_tail :
    ∀ (l : List Nat), (l.zip l.tail).map Prod.fst = l.dropLast
  | [] => rfl
  | [_] => rfl
  | a :: b :: t => by
    show a :: ((b :: t).zip (b :: t).tail).map Prod.fst =
      a :: (b :: t).dropLast
    rw [map_fst_zip_tail (b :: t)]

theorem mem_dropLast_zip_tail :
    ∀ (l : List Nat), l.Pairwise (· < ·) → ∀ x ∈ l.dropLast,
      ∃ y, (x, y) ∈ l.zip l.tail ∧ x < y ∧ y ∈ l ∧
        ∀ z ∈ l, ¬(x < z ∧ z < y)
  | [], _, x, hx => absurd hx (List.not_mem_nil x)
  | [a], _, x, hx => absurd hx (by simp)
  | a :: b :: t, hpw, x, hx => by
    rw [List.pairwise_cons] at hpw
    have hx2 : x = a ∨ x ∈ (b :: t).dropLast :=
      List.mem_cons.mp (show x ∈ a :: (b :: t).dropLast from hx)
    rcases hx2 with rfl | hx2
    · refine ⟨b, List.mem_cons_self _ _, hpw.1 b (List.mem_cons_self b t),
        List.mem_cons_of_mem _ (List.mem_cons_self b t), ?_⟩
      intro z hz hcon
      rcases List.mem_cons.mp hz with rfl | hz2
      · exact Nat.lt_irrefl z hcon.1
      rcases List.mem_cons.mp hz2 with rfl | hz3
      · exact Nat.lt_irrefl z hcon.2
      · have hbz : b < z := (List.pairwise_cons.mp hpw.2).1 z hz3
        exact Nat.lt_asymm hbz hcon.2
    · obtain ⟨y, hzip, hlt, hymem, hbet⟩ :=
        mem_dropLast_zip_tail (b :: t) hpw.2 x hx2
      have hxmem : x ∈ b :: t :=
        (List.dropLast_sublist (b :: t)).subset hx2
      refine ⟨y, List.mem_cons_of_mem _ hzip, hlt,
        List.mem_cons_of_mem a hymem, ?_⟩
      intro z hz hcon
      rcases List.mem_cons.mp hz with rfl | hz2
      · exact Nat.lt_asymm (hpw.1 x hxmem) hcon.1
      · exact hbet z hz2 hcon

theorem take_eq_takeWhile_of_boundary (p : String → Bool) :
    ∀ (M : List String) (m : Nat),
      (∀ j, j < m → p (M.getD j "") = false) →
      (m = M.length ∨ p (M.getD m "") = true) →
      M.take m = M.takeWhile fun l => !p l
  | [], m, _, _ => by simp
  | x :: M, 0, _, hb => by
    rcases hb with hb | hb
    · exact absurd hb (by simp)
    · rw [List.getD_cons_zero] at hb
      rw [List.take_zero, List.takeWhile_cons, hb]
      rfl
  | x :: M, m + 1, hj, hb => by
    have h0 : p x = false := by
      have := hj 0 (Nat.succ_pos m)
      rwa [List.getD_cons_zero] at this
    rw [List.take_succ_cons, List.takeWhile_cons, h0]
    show x :: M.take m = x :: List.takeWhile (fun l => !p l) M
    congr 1
    refine take_eq_takeWhile_of_boundary p M m
      (fun j hjm => ?_) ?_
    · have := hj (j + 1) (Nat.succ_lt_succ hjm)
      rwa [List.getD_cons_succ] at this
    · rcases hb with hb | hb
      · exact Or.inl (by simpa using hb)
      · rw [List.getD_cons_succ] at hb
        exact Or.inr hb

theorem keyIndices_pairwise (lines : List String) :
    (keyIndices lines).Pairwise (· < ·) :=
  (List.pairwise_lt_range lines.length).filter _

theorem mem_keyIndices {lines : List String} {i : Nat} :
    i ∈ keyIndices lines ↔
      i < lines.length ∧ containsDash (lines.getD i "") = true := by
  simp [keyIndices, List.mem_filter, List.mem_range]

theorem ki_pairwise (lines : List String) :
    ((keyIndices lines) ++ [lines.length]).Pairwise (· < ·) := by
  rw [List.pairwise_append]
  refine ⟨keyIndices_pairwise lines, List.pairwise_singleton _ _, ?_⟩
  intro x hx y hy
  rw [List.mem_singleton] at hy
  subst hy
  exact (mem_keyIndices.mp hx).1

/-- C10: in `_load_input_file`, every line containing a dash is a key:
a line containing `--` is stored as a flag whose value is `True` (the
lines after it are ignored for it), and any other line containing a dash
is stored with the list of lines strictly between it and the next line
containing a dash as its value — so a value line that itself contains a
dash (for instance a negative number) starts a new key and is never part
of any stored value. Keys are assumed pairwise distinct (a repeated key
line would be overwritten by its last occurrence). -/
theorem load_input_file_spec (lines : List String)
    (input_parameters : String → Option InputValue)
    (hdist : ((keyIndices lines).map fun j => lines.getD j "").Nodup)
    (i : Nat) (hi : i < lines.length)
    (hkey : containsDash (lines.getD i "") = true) :
    loadInputFile lines input_parameters (lines.getD i "") =
      some (if containsDoubleDash (lines.getD i "").data
        then InputValue.flagTrue
        else InputValue.valueLines
          ((lines.drop (i + 1)).takeWhile fun l => !containsDash l)) := by
  have himem : i ∈ keyIndices lines := mem_keyIndices.mpr ⟨hi, hkey⟩
  obtain ⟨n, hzip, hlt, hnmem, hbet⟩ :=
    mem_dropLast_zip_tail (keyIndices lines ++ [lines.length])
      (ki_pairwise lines) i
      (by rw [List.dropLast_concat]; exact himem)
  have hnodup : (((keyIndices lines ++ [lines.length]).zip
      (keyIndices lines ++ [lines.length]).tail).map
        (inputKey lines)).Nodup := by
    have hcomp : inputKey lines = (fun j => lines.getD j "") ∘ Prod.fst :=
      rfl
    rw [hcomp, ← List.map_map, map_fst_zip_tail, List.dropLast_concat]
    exact hdist
  have hlook : loadInputFile lines input_parameters
      (inputKey lines (i, n)) = some (inputValue lines (i, n)) := by
    unfold loadInputFile
    exact foldl_update_mem _ _ _ input_parameters (i, n) hzip hnodup
  have hkeyeq : inputKey lines (i, n) = lines.getD i "" := rfl
  rw [hkeyeq] at hlook
  rw [hlook]
  have hnle : n ≤ lines.length := by
    rcases List.mem_append.mp hnmem with hn | hn
    · exact Nat.le_of_lt (mem_keyIndices.mp hn).1
    · rw [List.mem_singleton] at hn
      omega
  congr 1
  unfold inputValue
  rw [hkeyeq]
  by_cases hdd : containsDoubleDash (lines.getD i "").data = true
  · rw [if_pos hdd, if_pos hdd]
  · rw [if_neg hdd, if_neg hdd]
    congr 1
    refine take_eq_takeWhile_of_boundary containsDash
      (lines.drop (i + 1)) (n - (i + 1)) (fun j hj => ?_) ?_
    · have hgd : (lines.drop (i + 1)).getD j "" =
          lines.getD (i + 1 + j) "" := by
        simp [List.getD_eq_getElem?_getD, List.getElem?_drop]
      rw [hgd]
      by_cases hc : containsDash (lines.getD (i + 1 + j) "") = true
      · exact absurd ⟨by omega, by omega⟩
          (hbet (i + 1 + j) (List.mem_append_left _
            (mem_keyIndices.mpr ⟨by omega, hc⟩)))
      · exact Bool.not_eq_true _ ▸ hc
    · rcases List.mem_append.mp hnmem with hn | hn
      · refine Or.inr ?_
        have hgd : (lines.drop (i + 1)).getD (n - (i + 1)) "" =
            lines.getD (i + 1 + (n - (i + 1))) "" := by
          simp [List.getD_eq_getElem?_getD, List.getElem?_drop]
        rw [hgd, show i + 1 + (n - (i + 1)) = n from by omega]
        exact (mem_keyIndices.mp hn).2
      · refine Or.inl ?_
        rw [List.mem_singleton] at hn
        rw [List.length_drop]
        omega

/-- C10 witness at a concrete input: the file
`["--flag", "ignored", "-key", "7", "-8", "x"]` stores the flag as
`True`, gives `-key` the single value line `7`, and treats the negative
number line `-8` as its own key with value `["x"]`. -/
theorem load_input_file_spec_witness :
    loadInputFile ["--flag", "ignored", "-key", "7", "-8", "x"]
        (fun _ => none) "-key" =
      some (if containsDoubleDash ("-key" : String).data
        then InputValue.flagTrue
        else InputValue.valueLines
          (List.takeWhile (fun l => !containsDash l)
            (List.drop (2 + 1)
              ["--flag", "ignored", "-key", "7", "-8", "x"]))) :=
  load_input_file_spec ["--flag", "ignored", "-key", "7", "-8", "x"]
    (fun _ => none) (by decide) 2 (by decide) (by decide)

/-! ### Grating checkboxes and the component chain (mainGUI.py lines
2364-2401)

`setup_components` holds the component names; adding a grating appends
it, sorts the list (Python `list.sort()`, lexicographic on strings, under
which Detector < G0 < G1 < G2 < Sample < Source) and swaps the first and
last entries; removing a grating uses `list.remove`. -/

/-- The component names that can appear in `setup_components`. -/
def componentNames : List String :=
  ["Detector", "G0", "G1", "G2", "Sample", "Source"]

/-- The three gratings. -/
def gratingNames : List String :=
  ["G0", "G1", "G2"]

/-- Whether a component name is a grating. -/
def isGrating (s : String) : Bool :=
  decide (s ∈ gratingNames)

/-- Lexicographic code-point comparison of character lists: Python
string `<=`, the order underlying `list.sort()`. -/
def strLeChars : List Char → List Char → Bool
  | [], _ => true
  | _ :: _, [] => false
  | a :: as, b :: bs =>
    if a.toNat < b.toNat then true
    else if b.toNat < a.toNat then false
    else strLeChars as bs

/-- Strict lexicographic code-point comparison (Python string `<`). -/
def strLtChars : List Char → List Char → Bool
  | [], [] => false
  | [], _ :: _ => true
  | _ :: _, [] => false
  | a :: as, b :: bs =>
    if a.toNat < b.toNat then true
    else if b.toNat < a.toNat then false
    else strLtChars as bs

/-- Boolean string comparison modelling Python `list.sort()` order. -/
def strLe (a b : String) : Bool :=
  strLeChars a.data b.data

/-- Strict boolean string comparison. -/
def strLt (a b : String) : Bool :=
  strLtChars a.data b.data

/-- Python tuple swap `lst[0], lst[-1] = lst[-1], lst[0]` (mainGUI.py
lines 2380-2381); both old values are read before the writes.  In the
GUI the list always holds at least Source and Detector, so the defaults
of `headD`/`getLastD` are never used. -/
def swapEnds (l : List String) : List String :=
  (l.set 0 (l.getLastD "")).set (l.length - 1) (l.headD "")

/-- The add branch of `giGUI.on_grating_checkbox_active` (mainGUI.py
lines 2376-2381): append the grating, sort, then swap the first and last
entries (moving `Source` to the front and `Detector` to the back). -/
def onGratingAdd (setup_components : List String) (grating : String) :
    List String :=
  swapEnds ((setup_components ++ [grating]).mergeSort strLe)

/-- The remove branch (mainGUI.py line 2390): Python `list.remove` drops
the first occurrence (it presupposes that the grating is present). -/
def onGratingRemove (setup_components : List String) (grating : String) :
    List String :=
  setup_components.erase grating

/-- The component-chain invariant: `Source` first, `Detector` last, and
the gratings present appear in the order G0 < G1 < G2 in between. -/
def ChainInv (l : List String) : Prop :=
  l.head? = some "Source" ∧ l.getLast? = some "Detector" ∧
    (l.filter isGrating).Sublist gratingNames

instance (l : List String) : Decidable (ChainInv l) :=
  inferInstanceAs (Decidable (_ ∧ _ ∧ _))

theorem charEq {a b : Char} (h : a.toNat = b.toNat) : a = b :=
  Char.eq_of_val_eq (UInt32.ext h)

theorem strLeChars_trans : ∀ (as bs cs : List Char),
    strLeChars as bs = true → strLeChars bs cs = true →
      strLeChars as cs = true
  | [], _, _, _, _ => rfl
  | _ :: _, [], _, h, _ => by cases h
  | _ :: _, _ :: _, [], _, h => by cases h
  | a :: as, b :: bs, c :: cs, h1, h2 => by
    simp only [strLeChars] at h1 h2 ⊢
    by_cases hab : a.toNat < b.toNat
    · by_cases hbc : b.toNat < c.toNat
      · simp [show a.toNat < c.toNat from by omega]
      · by_cases hcb : c.toNat < b.toNat
        · simp [hbc, hcb] at h2
        · simp [show a.toNat < c.toNat from by omega]
    · by_cases hba : b.toNat < a.toNat
      · simp [hab, hba] at h1
      · by_cases hbc : b.toNat < c.toNat
        · simp [show a.toNat < c.toNat from by omega]
        · by_cases hcb : c.toNat < b.toNat
          · simp [hbc, hcb] at h2
          · simp only [hab, hba, hbc, hcb, if_false] at h1 h2
            simp only [show ¬a.toNat < c.toNat from by omega,
              show ¬c.toNat < a.toNat from by omega, if_false]
            exact strLeChars_trans as bs cs h1 h2

theorem strLeChars_total : ∀ (as bs : List Char),
    (strLeChars as bs || strLeChars bs as) = true
  | [], [] => rfl
  | [], _ :: _ => rfl
  | _ :: _, [] => rfl
  | a :: as, b :: bs => by
    simp only [strLeChars]
    by_cases hab : a.toNat < b.toNat
    · simp [hab]
    · by_cases hba : b.toNat < a.toNat
      · simp [hab, hba]
      · simp only [hab, hba, if_false]
        exact strLeChars_total as bs

theorem strLeChars_refl (as : List Char) : strLeChars as as = true := by
  have := strLeChars_total as as
  rcases Bool.or_eq_true_iff.mp this with h | h <;> exact h

theorem strLtChars_irrefl : ∀ (as : List Char), strLtChars as as = false
  | [] => rfl
  | a :: as => by
    simp only [strLtChars, Nat.lt_irrefl, if_false]
    exact strLtChars_irrefl as

theorem strLtChars_asymm : ∀ (as bs : List Char),
    strLtChars as bs = true → strLtChars bs as = false
  | [], [], h => by cases h
  | [], _ :: _, _ => rfl
  | _ :: _, [], h => by cases h
  | a :: as, b :: bs, h => by
    simp only [strLtChars] at h ⊢
    by_cases hab : a.toNat < b.toNat
    · simp [show ¬b.toNat < a.toNat from by omega, hab]
    · by_cases hba : b.toNat < a.toNat
      · simp [hab, hba] at h
      · simp only [hab, hba, if_false] at h ⊢
        exact strLtChars_asymm as bs h

theorem strLtChars_of_le_of_ne : ∀ (as bs : List Char),
    strLeChars as bs = true → as ≠ bs → strLtChars as bs = true
  | [], [], _, hne => absurd rfl hne
  | [], _ :: _, _, _ => rfl
  | _ :: _, [], h, _ => by cases h
  | a :: as, b :: bs, h, hne => by
    simp only [strLeChars] at h
    simp only [strLtChars]
    by_cases hab : a.toNat < b.toNat
    · simp [hab]
    · by_cases hba : b.toNat < a.toNat
      · simp [hab, hba] at h
      · obtain rfl : a = b := charEq (by omega)
        simp only [hab, hba, if_false] at h ⊢
        exact strLtChars_of_le_of_ne as bs h
          (fun hh => hne (by rw [hh]))

theorem strLe_trans : ∀ (a b c : String), strLe a b → strLe b c →
    strLe a c :=
  fun a b c h1 h2 => strLeChars_trans a.data b.data c.data h1 h2

theorem strLe_total : ∀ (a b : String), strLe a b || strLe b a :=
  fun a b => strLeChars_total a.data b.data

theorem strLe_refl (a : String) : strLe a a = true :=
  strLeChars_refl a.data

theorem strLt_of_le_of_ne {a b : String} (h : strLe a b = true)
    (hne : a ≠ b) : strLt a b = true :=
  strLtChars_of_le_of_ne a.data b.data h
    (fun hd => hne (show a = b from congrArg String.mk hd))

/-- Among the component names, only `Detector` sorts at or below
`Detector`. -/
theorem comp_eq_detector_of_le :
    ∀ x ∈ componentNames, strLe x "Detector" = true → x = "Detector" := by
  decide

/-- Among the component names, only `Source` sorts at or above
`Source`. -/
theorem comp_eq_source_of_ge :
    ∀ x ∈ componentNames, strLe "Source" x = true → x = "Source" := by
  decide

theorem set_length_concat (x y : String) :
    ∀ (mid : List String), (mid ++ [x]).set mid.length y = mid ++ [y]
  | [] => rfl
  | m :: mid => by
    show m :: ((mid ++ [x]).set mid.length y) = m :: (mid ++ [y])
    rw [set_length_concat x y mid]

theorem swapEnds_cons_concat (a c : String) (mid : List String) :
    swapEnds (a :: (mid ++ [c])) = c :: (mid ++ [a]) := by
  unfold swapEnds
  have h1 : (a :: (mid ++ [c])).getLastD "" = c := by
    rw [show a :: (mid ++ [c]) = (a :: mid) ++ [c] from rfl]
    exact List.getLastD_concat _ _ _
  have h2 : (a :: (mid ++ [c])).headD "" = a := rfl
  have h3 : (a :: (mid ++ [c])).length - 1 = mid.length + 1 := by
    simp only [List.length_cons, List.length_append, List.length_nil]
    omega
  rw [h1, h2, List.set_cons_zero, h3, List.set_cons_succ,
    set_length_concat]

theorem pairwise_head_le {l : List String} {h : String}
    (hp : l.Pairwise (fun a b => strLe a b = true))
    (hh : l.head? = some h) :
    ∀ x ∈ l, strLe h x = true := by
  cases l with
  | nil => cases hh
  | cons a t =>
    rw [List.head?_cons, Option.some_inj] at hh
    subst hh
    intro x hx
    rcases List.mem_cons.mp hx with rfl | hx2
    · exact strLe_refl x
    · exact (List.pairwise_cons.mp hp).1 x hx2

theorem pairwise_getLast_ge :
    ∀ (l : List String) (b : String),
      l.Pairwise (fun a b => strLe a b = true) →
      l.getLast? = some b → ∀ x ∈ l, strLe x b = true
  | [], _, _, hb => by cases hb
  | [a], b, _, hb => by
    simp only [List.getLast?_singleton, Option.some_inj] at hb
    subst hb
    intro x hx
    rcases List.mem_singleton.mp hx with rfl
    exact strLe_refl x
  | a :: c :: t, b, hp, hb => by
    rw [List.getLast?_cons_cons] at hb
    intro x hx
    rcases List.mem_cons.mp hx with rfl | hx2
    · exact (List.pairwise_cons.mp hp).1 b
        (List.mem_of_getLast?_eq_some hb)
    · exact pairwise_getLast_ge (c :: t) b
        (List.pairwise_cons.mp hp).2 hb x hx2

theorem getLast?_erase_of_ne :
    ∀ (l : List String) (a b : String), l.getLast? = some b → a ≠ b →
      (l.erase a).getLast? = some b
  | [], _, _, hb, _ => by cases hb
  | [x], a, b, hb, hne => by
    simp only [List.getLast?_singleton, Option.some_inj] at hb
    subst hb
    rw [show ([x] : List String).erase a = [x] from
      List.erase_cons_tail (by simp; exact fun h => hne h.symm)]
    rfl
  | x :: y :: t, a, b, hb, hne => by
    rw [List.getLast?_cons_cons] at hb
    by_cases hxa : x = a
    · subst hxa
      rw [show ((x :: y :: t).erase x) = y :: t from
        List.erase_cons_head x (y :: t)]
      exact hb
    · rw [List.erase_cons_tail (by simp; exact hxa)]
      have hrec := getLast?_erase_of_ne (y :: t) a b hb hne
      rcases herase : (y :: t).erase a with _ | ⟨m, M⟩
      · rw [herase] at hrec
        cases hrec
      · rw [herase] at hrec
        rw [List.getLast?_cons_cons]
        exact hrec

theorem pairwise_lt_subset_sublist :
    ∀ (u l : List String), u.Pairwise (fun a b => strLt a b = true) →
      l.Pairwise (fun a b => strLt a b = true) →
      (∀ x ∈ l, x ∈ u) → l.Sublist u
  | _, [], _, _, _ => List.nil_sublist _
  | [], x :: l, _, _, hsub =>
    absurd (hsub x (List.mem_cons_self x l)) (List.not_mem_nil x)
  | a :: u, x :: l, hu, hl, hsub => by
    by_cases hxa : x = a
    · subst hxa
      refine List.Sublist.cons₂ x (pairwise_lt_subset_sublist u l
        (List.pairwise_cons.mp hu).2 (List.pairwise_cons.mp hl).2 ?_)
      intro y hy
      rcases List.mem_cons.mp (hsub y (List.mem_cons_of_mem x hy))
        with rfl | hyu
      · have := (List.pairwise_cons.mp hl).1 y hy
        rw [show strLt y y = false from strLtChars_irrefl y.data] at this
        cases this
      · exact hyu
    · refine List.Sublist.cons a (pairwise_lt_subset_sublist u (x :: l)
        (List.pairwise_cons.mp hu).2 hl ?_)
      intro y hy
      rcases List.mem_cons.mp (hsub y hy) with rfl | hyu
      · rcases List.mem_cons.mp hy with hax | hyl
        · exact absurd hax.symm hxa
        · have hxu : x ∈ u := by
            rcases List.mem_cons.mp (hsub x (List.mem_cons_self x l))
              with hx1 | hx1
            · exact absurd hx1 hxa
            · exact hx1
          have h1 := (List.pairwise_cons.mp hu).1 x hxu
          have h2 := (List.pairwise_cons.mp hl).1 y hyl
          rw [show strLt y x = false from strLtChars_asymm x.data y.data
            h2] at h1
          cases h1
      · exact hyu

theorem sorted_chain_swap (s : List String)
    (hsorted : s.Pairwise (fun a b => strLe a b = true))
    (hnds : s.Nodup)
    (hmems : ∀ x ∈ s, x ∈ componentNames)
    (hSin : "Source" ∈ s) (hDin : "Detector" ∈ s) :
    ChainInv (swapEnds s) := by
  obtain ⟨h0, t0, rfl⟩ : ∃ h0 t0, s = h0 :: t0 := by
    cases s with
    | nil => cases hSin
    | cons a t => exact ⟨a, t, rfl⟩
  obtain rfl : h0 = "Detector" :=
    comp_eq_detector_of_le h0 (hmems h0 (List.mem_cons_self h0 t0))
      (pairwise_head_le hsorted rfl "Detector" hDin)
  have hne0 : ("Detector" :: t0) ≠ ([] : List String) :=
    List.cons_ne_nil _ _
  have hlasteq : ("Detector" :: t0).getLast? =
      some (("Detector" :: t0).getLast hne0) :=
    List.getLast?_eq_getLast _ hne0
  have hglS : ("Detector" :: t0).getLast hne0 = "Source" :=
    comp_eq_source_of_ge _ (hmems _ (List.getLast_mem hne0))
      (pairwise_getLast_ge _ _ hsorted hlasteq "Source" hSin)
  have ht0ne : t0 ≠ [] := by
    intro h
    subst h
    rw [show ("Detector" :: ([] : List String)).getLast hne0 = "Detector"
      from rfl] at hglS
    exact absurd hglS (by decide)
  obtain ⟨mid, rfl⟩ : ∃ mid, t0 = mid ++ ["Source"] := by
    refine ⟨t0.dropLast, ?_⟩
    have hgl2 : t0.getLast ht0ne = "Source" := by
      rw [List.getLast_cons ht0ne] at hglS
      exact hglS
    have hdc := List.dropLast_concat_getLast ht0ne
    rw [hgl2] at hdc
    exact hdc.symm
  rw [swapEnds_cons_concat]
  have hGS : isGrating "Source" = false := by decide
  have hGD : isGrating "Detector" = false := by decide
  refine ⟨rfl, ?_, ?_⟩
  · rw [show "Source" :: (mid ++ ["Detector"]) =
      ("Source" :: mid) ++ ["Detector"] from rfl]
    exact List.getLast?_concat _
  · have hflt : List.filter isGrating ("Source" :: (mid ++ ["Detector"]))
        = List.filter isGrating mid := by
      simp [List.filter_append, hGS, hGD]
    have hflt2 : List.filter isGrating
        ("Detector" :: (mid ++ ["Source"])) =
        List.filter isGrating mid := by
      simp [List.filter_append, hGS, hGD]
    rw [hflt]
    have hstrict : ("Detector" :: (mid ++ ["Source"])).Pairwise
        (fun a b => strLt a b = true) :=
      (hsorted.and hnds).imp (fun h => strLt_of_le_of_ne h.1 h.2)
    have hfs : (("Detector" :: (mid ++ ["Source"])).filter
        isGrating).Sublist gratingNames :=
      pairwise_lt_subset_sublist gratingNames _ (by decide)
        (hstrict.filter isGrating)
        (fun x hx => of_decide_eq_true (List.mem_filter.mp hx).2)
    rw [hflt2] at hfs
    exact hfs

/-- C7: every add or remove of a grating (G0, G1 or G2) through
`giGUI.on_grating_checkbox_active` preserves the component-chain
invariant: `Source` is first, `Detector` is last, and the gratings
present appear in the order G0 < G1 < G2 between them. -/
theorem grating_checkbox_preserves_chain (l : List String) (g : String)
    (hinv : ChainInv l) (hnd : l.Nodup)
    (hsub : ∀ x ∈ l, x ∈ componentNames) (hg : g ∈ gratingNames) :
    (g ∉ l → ChainInv (onGratingAdd l g)) ∧
    (g ∈ l → ChainInv (onGratingRemove l g)) := by
  obtain ⟨hhead, hlast, hfil⟩ := hinv
  constructor
  · intro hgl
    have hgc : g ∈ componentNames :=
      (by decide : ∀ x ∈ gratingNames, x ∈ componentNames) g hg
    have hmg : ∀ x ∈ l ++ [g], x ∈ componentNames := by
      intro x hx
      rcases List.mem_append.mp hx with hx | hx
      · exact hsub x hx
      · rw [List.mem_singleton] at hx
        subst hx
        exact hgc
    have hndm : (l ++ [g]).Nodup := by
      rw [List.nodup_append]
      refine ⟨hnd, List.nodup_singleton g, ?_⟩
      intro x hx hx2
      rw [List.mem_singleton] at hx2
      subst hx2
      exact hgl hx
    have hperm : List.Perm ((l ++ [g]).mergeSort strLe) (l ++ [g]) :=
      List.mergeSort_perm _ _
    have hsorted : ((l ++ [g]).mergeSort strLe).Pairwise
        (fun a b => strLe a b = true) :=
      List.sorted_mergeSort strLe_trans strLe_total (l ++ [g])
    have hnds : ((l ++ [g]).mergeSort strLe).Nodup :=
      (hperm.nodup_iff).mpr hndm
    have hmems : ∀ x ∈ (l ++ [g]).mergeSort strLe,
        x ∈ componentNames :=
      fun x hx => hmg x (hperm.mem_iff.mp hx)
    have hSl : "Source" ∈ l := by
      cases l with
      | nil => cases hhead
      | cons a t =>
        rw [List.head?_cons, Option.some_inj] at hhead
        subst hhead
        exact List.mem_cons_self _ _
    have hDl : "Detector" ∈ l := List.mem_of_getLast?_eq_some hlast
    show ChainInv (swapEnds ((l ++ [g]).mergeSort strLe))
    exact sorted_chain_swap _ hsorted hnds hmems
      (hperm.mem_iff.mpr (List.mem_append_left _ hSl))
      (hperm.mem_iff.mpr (List.mem_append_left _ hDl))
  · intro hgmem
    have hgS : g ≠ "Source" :=
      (by decide : ∀ x ∈ gratingNames, x ≠ "Source") g hg
    have hgD : g ≠ "Detector" :=
      (by decide : ∀ x ∈ gratingNames, x ≠ "Detector") g hg
    refine ⟨?_, ?_, ?_⟩
    · show (l.erase g).head? = some "Source"
      cases l with
      | nil => cases hhead
      | cons a t =>
        rw [List.head?_cons, Option.some_inj] at hhead
        subst hhead
        rw [List.erase_cons_tail (by simp; exact fun h => hgS h.symm)]
        exact List.head?_cons
    · exact getLast?_erase_of_ne l g "Detector" hlast hgD
    · exact ((List.erase_sublist g l).filter isGrating).trans hfil

/-- C7 witness at concrete inputs: adding `G1` to the bare chain and
removing `G1` from a chain holding it both preserve the invariant. -/
theorem grating_checkbox_preserves_chain_witness :
    ChainInv (onGratingAdd ["Source", "Detector"] "G1") ∧
      ChainInv (onGratingRemove ["Source", "G1", "Detector"] "G1") :=
  ⟨(grating_checkbox_preserves_chain ["Source", "Detector"] "G1"
      (by decide) (by decide) (by decide) (by decide)).1 (by decide),
   (grating_checkbox_preserves_chain ["Source", "G1", "Detector"] "G1"
      (by decide) (by decide) (by decide) (by decide)).2 (by decide)⟩

end GiSim
